import Mathlib

/-!
Verification of the pubchem-toxinfo-cas-retriever repository.

Shallow embedding of the two Python pipelines:
* `src/get_toxinfo_by_cas6.py`  (pipeline A): `fetch_url`, `get_pubchem_cid`,
  `extract_tox_data` / `process_section`, `get_tox_data_for_cas_numbers`.
* `src/pubchem_hazard_scraper.py` (pipeline B): `cas_to_cid`,
  `get_ghs_classification`, `process_row`, `main`'s batching loop and
  row write-back.

Conventions used throughout:
* JSON values are modelled by the inductive `JVal`.
* A network interaction is modelled by a list of per-attempt `Outcome`s:
  the outcome the attempt would observe (a 200 body, a non-200 status code,
  or a raised exception).  The retry loops are embedded as structurally
  recursive functions on a fuel value equal to the number of attempts left,
  so everything evaluates by `rfl`/`decide`.
* Each loop returns, besides its Python return value, the list of sleep
  durations it awaited (in seconds, as rationals) and the number of loop
  iterations (attempts) it executed, so timing/attempt-count claims can be
  stated.
-/

/-- JSON values, as produced by `json.loads` / `resp.json()`. -/
inductive JVal where
  | null
  | str (s : String)
  | num (n : Int)
  | arr (elems : List JVal)
  | obj (fields : List (String × JVal))

/-- Python `key in data` for a parsed JSON object (the scripts only ever use
`in` on dicts, so non-objects report `false`). -/
def jHasKey (v : JVal) (k : String) : Bool :=
  match v with
  | .obj fields => fields.any (fun kv => kv.1 == k)
  | _ => false

/-- Python `data[key]` on a parsed JSON object (first binding wins; the
scripts only index objects whose key was just tested with `in`). -/
def jGetD (v : JVal) (k : String) : JVal :=
  match v with
  | .obj fields =>
    match fields.find? (fun kv => kv.1 == k) with
    | some kv => kv.2
    | none => .null
  | _ => .null

/-- The elements of a JSON array (`data[...]` used as a Python list). -/
def jArrElems (v : JVal) : List JVal :=
  match v with
  | .arr elems => elems
  | _ => []

/-- The dict `{'error': msg}` that `fetch_url` returns on failures. -/
def errObj (msg : String) : JVal := .obj [("error", .str msg)]

/-! ## Pipeline A: `fetch_url` (get_toxinfo_by_cas6.py lines 14-37) -/

/-- What one attempt of `fetch_url` observes: a 200 response whose body
parses to `body`, a non-200 HTTP status, or a raised exception with message
`msg`.  (The 200/UnicodeDecodeError re-decode fallback of lines 19-27 only
changes how the body text is decoded, not which JSON value results, so a 200
outcome directly carries the parsed value.) -/
inductive AOutcome where
  | ok (body : JVal)
  | status (code : Nat)
  | exc (msg : String)

/-- Default outcome used by `List.getD` for attempts past the end of the
outcome list; the statements about `fetch_url` always pin the outcomes that
are actually consumed. -/
def defaultAOutcome : AOutcome := .exc "no outcome"

/-- Result of a `fetch_url` run: the value returned (`none` models Python's
implicit `None` when the `for` loop falls through), the sleeps awaited, and
the number of attempts executed. -/
structure FetchOut where
  result : Option JVal
  sleeps : List ℚ
  attempts : Nat

/-- The body of `fetch_url`'s `for attempt in range(retries)` loop, by fuel:
`fuel` is the number of attempts left, `attempt` the current 0-based index,
so `attempt + fuel = retries` throughout and the Python test
`attempt == retries - 1` is `fuel == 1`. -/
def fetch_url_go (outcomes : List AOutcome) : Nat → Nat → FetchOut
  | 0, _ => ⟨none, [], 0⟩
  | fuel + 1, attempt =>
    match outcomes.getD attempt defaultAOutcome with
    | .ok body => ⟨some body, [], 1⟩
    | .status code =>
      if code == 503 then
        let r := fetch_url_go outcomes fuel (attempt + 1)
        ⟨r.result, ((2 : ℚ) ^ attempt) :: r.sleeps, r.attempts + 1⟩
      else
        ⟨some (errObj ("HTTP error " ++ toString code)), [], 1⟩
    | .exc msg =>
      if fuel == 0 then
        ⟨some (errObj msg), [], 1⟩
      else
        let r := fetch_url_go outcomes fuel (attempt + 1)
        ⟨r.result, ((2 : ℚ) ^ attempt) :: r.sleeps, r.attempts + 1⟩

/-- Model of `fetch_url(session, url, retries)`, driven by the attempt outcomes the
session would produce. -/
def fetch_url (outcomes : List AOutcome) (retries : Nat := 3) : FetchOut :=
  fetch_url_go outcomes retries 0

example : (fetch_url [.status 503, .status 503, .status 503] 3).result = none := rfl
example : (fetch_url [.status 503, .status 503, .status 503] 3).sleeps = [1, 2, 4] := rfl
example : (fetch_url [.exc "a", .exc "b", .exc "c"] 3).result = some (errObj "c") := rfl
example : (fetch_url [.status 500] 3).result
    = some (errObj "HTTP error 500") := rfl
example : (fetch_url [.status 503, .ok .null] 3).attempts = 2 := rfl

/-! ## Pipeline B: the regex code extractor
(`pubchem_hazard_scraper.py` lines 41-47)

Python's `sorted` compares strings lexicographically by code point; we embed
that order as a computable Boolean comparison on the underlying character
lists (Mathlib's `String` order does not evaluate inside the kernel). -/

/-- Lexicographic (code-point) `<=` on character lists, Python's string
comparison. -/
def lexLe : List Char → List Char → Bool
  | [], _ => true
  | _ :: _, [] => false
  | a :: as, b :: bs =>
    if a < b then true
    else if b < a then false
    else lexLe as bs

/-- Python string `<=`. -/
def strLe (a b : String) : Bool := lexLe a.data b.data

theorem lexLe_total : ∀ a b, lexLe a b = true ∨ lexLe b a = true := by
  intro a
  induction a with
  | nil => intro b; left; rfl
  | cons x as ih =>
    intro b
    cases b with
    | nil => right; rfl
    | cons y bs =>
      by_cases hxy : x < y
      · left; simp [lexLe, hxy]
      · by_cases hyx : y < x
        · right; simp [lexLe, hyx, asymm hyx]
        · rcases ih bs with h | h <;> [left; right] <;>
            simp [lexLe, hxy, hyx, h]

theorem lexLe_trans :
    ∀ a b c, lexLe a b = true → lexLe b c = true → lexLe a c = true := by
  intro a
  induction a with
  | nil => intro b c _ _; rfl
  | cons x as ih =>
    intro b c hab hbc
    cases b with
    | nil => simp [lexLe] at hab
    | cons y bs =>
      cases c with
      | nil => simp [lexLe] at hbc
      | cons z cs =>
        simp only [lexLe] at hab hbc ⊢
        by_cases hxy : x < y <;> by_cases hyz : y < z
        · have : x < z := lt_trans hxy hyz
          simp [this]
        · simp only [hyz, if_neg] at hbc
          by_cases hzy : z < y
          · simp [hyz, hzy] at hbc
          · have : y = z := le_antisymm (not_lt.mp hzy) (not_lt.mp hyz)
            subst this
            simp [hxy]
        · simp only [hxy, if_neg] at hab
          by_cases hyx : y < x
          · simp [hxy, hyx] at hab
          · have : x = y := le_antisymm (not_lt.mp hyx) (not_lt.mp hxy)
            subst this
            simp [hyz]
        · simp only [hxy, if_neg] at hab
          simp only [hyz, if_neg] at hbc
          by_cases hyx : y < x
          · simp [hyx] at hab
          · by_cases hzy : z < y
            · simp [hzy] at hbc
            · have hxz : ¬x < z := by
                have h1 : x = y := le_antisymm (not_lt.mp hyx) (not_lt.mp hxy)
                have h2 : y = z := le_antisymm (not_lt.mp hzy) (not_lt.mp hyz)
                simp [h1, h2]
              have hzx : ¬z < x := by
                have h1 : x = y := le_antisymm (not_lt.mp hyx) (not_lt.mp hxy)
                have h2 : y = z := le_antisymm (not_lt.mp hzy) (not_lt.mp hyz)
                simp [h1, h2]
              simp only [hxz, if_neg, hzx]
              simp only [hyx, if_neg] at hab
              simp only [hzy, if_neg] at hbc
              simp [ih bs cs hab hbc]

theorem lexLe_antisymm :
    ∀ a b, lexLe a b = true → lexLe b a = true → a = b := by
  intro a
  induction a with
  | nil =>
    intro b _ hba
    cases b with
    | nil => rfl
    | cons y bs => simp [lexLe] at hba
  | cons x as ih =>
    intro b hab hba
    cases b with
    | nil => simp [lexLe] at hab
    | cons y bs =>
      simp only [lexLe] at hab hba
      by_cases hxy : x < y
      · simp [asymm hxy, hxy] at hba
      · by_cases hyx : y < x
        · simp [hxy, hyx] at hab
        · have hx : x = y := le_antisymm (not_lt.mp hyx) (not_lt.mp hxy)
          subst hx
          simp only [lt_irrefl, if_neg] at hab hba
          simp only [lt_irrefl, if_false] at hab hba
          have := ih bs (by simpa using hab) (by simpa using hba)
          simp [this]

/-- The sorting relation used to embed Python's `sorted` on strings. -/
def pyLe (a b : String) : Prop := strLe a b = true

instance : DecidableRel pyLe := fun a b => inferInstanceAs (Decidable (strLe a b = true))

instance : IsTotal String pyLe := ⟨fun a b => lexLe_total a.data b.data⟩

instance : IsTrans String pyLe :=
  ⟨fun a b c hab hbc => lexLe_trans a.data b.data c.data hab hbc⟩

instance : IsAntisymm String pyLe :=
  ⟨fun a b hab hba => by
    have h := lexLe_antisymm a.data b.data hab hba
    cases a; cases b; exact congrArg String.mk h⟩

/-- Python `sorted(set(l))`: the distinct elements of `l` in ascending
order. -/
def sortedUnique (l : List String) : List String :=
  List.insertionSort pyLe l.dedup

/-- Two lists with the same members have the same `sorted(set(·))`. -/
theorem sortedUnique_congr {l₁ l₂ : List String}
    (h : ∀ s, s ∈ l₁ ↔ s ∈ l₂) : sortedUnique l₁ = sortedUnique l₂ := by
  apply List.eq_of_perm_of_sorted (r := pyLe)
  · have h₁ : (List.insertionSort pyLe l₁.dedup).Nodup :=
      (List.perm_insertionSort pyLe l₁.dedup).nodup_iff.mpr l₁.nodup_dedup
    have h₂ : (List.insertionSort pyLe l₂.dedup).Nodup :=
      (List.perm_insertionSort pyLe l₂.dedup).nodup_iff.mpr l₂.nodup_dedup
    refine (List.perm_ext_iff_of_nodup h₁ h₂).mpr fun s => ?_
    simp only [List.mem_insertionSort, List.mem_dedup]
    exact h s
  · exact List.sorted_insertionSort pyLe l₁.dedup
  · exact List.sorted_insertionSort pyLe l₂.dedup

example : sortedUnique ["P264", "H302", "P264", "H302"] = ["H302", "P264"] := by decide

/-- Does the text start with `c0` followed by exactly three digits?  This is
the `re` pattern `H\d{3}` (resp. `P\d{3}`) tested at the current scan
position.  (Python's `\d` also accepts non-ASCII decimal digits; the pages
the scraper reads are ASCII, so `Char.isDigit` is the faithful embedding.) -/
def codeAt (c0 : Char) : List Char → Bool
  | c :: d1 :: d2 :: d3 :: _ => c == c0 && d1.isDigit && d2.isDigit && d3.isDigit
  | _ => false

/-- The scan of `re.findall(r"H\d{3}", text)` (resp. `P...`): left to right; on a
match, emit the four matched characters and resume after the match,
otherwise advance one character. -/
def findallCode (c0 : Char) : List Char → List String
  | c :: d1 :: d2 :: d3 :: r =>
    if codeAt c0 (c :: d1 :: d2 :: d3 :: r) then
      String.mk [c, d1, d2, d3] :: findallCode c0 r
    else
      findallCode c0 (d1 :: d2 :: d3 :: r)
  | _ :: rest => findallCode c0 rest
  | [] => []

/-- Specification-side extractor, following the spec's words: the match at
every position of the text ("all substrings matching `H` followed by exactly
3 digits"), advancing one character at a time. -/
def allCodeMatches (c0 : Char) : List Char → List String
  | [] => []
  | c :: rest =>
    (if codeAt c0 (c :: rest) then [String.mk ((c :: rest).take 4)] else [])
      ++ allCodeMatches c0 rest

example : findallCode 'H' "xH302 H315yH30".toList = ["H302", "H315"] := by decide
example : allCodeMatches 'H' "xH302 H315yH30".toList = ["H302", "H315"] := by decide

/-- A position starting with a digit cannot start a code match (codes start
with the non-digit character `c0`), so dropping such a character loses no
spec-side matches. -/
theorem allCodeMatches_cons_digit (c0 d : Char) (h0 : c0.isDigit = false)
    (hd : d.isDigit = true) (l : List Char) :
    allCodeMatches c0 (d :: l) = allCodeMatches c0 l := by
  have hne : (d == c0) = false := by
    by_cases h : d = c0
    · exact absurd (h ▸ hd) (by simp [h0])
    · exact beq_eq_false_iff_ne.mpr h
  match l with
  | [] => simp [allCodeMatches, codeAt]
  | [x] => simp [allCodeMatches, codeAt]
  | [x, y] => simp [allCodeMatches, codeAt]
  | x :: y :: z :: t => simp [allCodeMatches, codeAt, hne]

/-- Matches of the code pattern never overlap (the three characters after a
match head are digits, and a match cannot start on a digit), so the
skip-past-the-match scan of `re.findall` finds exactly the substrings that
match at some position of the text. -/
theorem mem_findallCode_iff (c0 : Char) (h0 : c0.isDigit = false) (l : List Char)
    (s : String) : s ∈ findallCode c0 l ↔ s ∈ allCodeMatches c0 l := by
  suffices H : ∀ (n : Nat) (l : List Char), l.length ≤ n → ∀ s : String,
      (s ∈ findallCode c0 l ↔ s ∈ allCodeMatches c0 l) by
    exact H l.length l le_rfl s
  intro n
  induction n with
  | zero =>
    intro l hl s
    have : l = [] := List.eq_nil_of_length_eq_zero (Nat.le_zero.mp hl)
    subst this
    simp [findallCode, allCodeMatches]
  | succ n ih =>
    intro l hl s
    match l with
    | [] => simp [findallCode, allCodeMatches]
    | [c] => simp [findallCode, allCodeMatches, codeAt]
    | [c, d1] => simp [findallCode, allCodeMatches, codeAt]
    | [c, d1, d2] => simp [findallCode, allCodeMatches, codeAt]
    | c :: d1 :: d2 :: d3 :: r =>
      by_cases hm : codeAt c0 (c :: d1 :: d2 :: d3 :: r) = true
      · have hds := hm
        simp only [codeAt, Bool.and_eq_true] at hds
        obtain ⟨⟨⟨hc, hd1⟩, hd2⟩, hd3⟩ := hds
        have hall : allCodeMatches c0 (c :: d1 :: d2 :: d3 :: r)
            = String.mk [c, d1, d2, d3] :: allCodeMatches c0 r := by
          rw [allCodeMatches, if_pos hm,
            allCodeMatches_cons_digit c0 d1 h0 hd1,
            allCodeMatches_cons_digit c0 d2 h0 hd2,
            allCodeMatches_cons_digit c0 d3 h0 hd3]
          simp
        have hfind : findallCode c0 (c :: d1 :: d2 :: d3 :: r)
            = String.mk [c, d1, d2, d3] :: findallCode c0 r := by
          rw [findallCode, if_pos hm]
        have hr : s ∈ findallCode c0 r ↔ s ∈ allCodeMatches c0 r :=
          ih r (by simp at hl ⊢; omega) s
        rw [hall, hfind]
        simp [List.mem_cons, hr]
      · have hfind : findallCode c0 (c :: d1 :: d2 :: d3 :: r)
            = findallCode c0 (d1 :: d2 :: d3 :: r) := by
          rw [findallCode, if_neg hm]
        have hall : allCodeMatches c0 (c :: d1 :: d2 :: d3 :: r)
            = allCodeMatches c0 (d1 :: d2 :: d3 :: r) := by
          rw [allCodeMatches, if_neg hm]
          simp
        rw [hall, hfind]
        exact ih (d1 :: d2 :: d3 :: r) (by simp at hl ⊢; omega) s

/-- Python's substring test `needle in hay`. -/
def strContainsL (hay needle : List Char) : Bool :=
  hay.tails.any (fun t => needle.isPrefixOf t)

/-- The sentinel the scraper checks for and returns. -/
def noDataStr : String := "No data found"

/-- The 200-status body of `get_ghs_classification`
(pubchem_hazard_scraper.py lines 41-47): sentinel short-circuit, then
`re.findall` + `",".join(sorted(set(..)))` for `H\d{3}` and `P\d{3}`. -/
def ghs_extract (text : List Char) : String × String :=
  if strContainsL text noDataStr.data then (noDataStr, noDataStr)
  else
    (String.intercalate "," (sortedUnique (findallCode 'H' text)),
     String.intercalate "," (sortedUnique (findallCode 'P' text)))

/-- The spec's description of the same outputs: "the comma-joined,
lexicographically sorted, deduplicated list of all substrings matching `H`
followed by exactly 3 digits" (resp. `P`). -/
def specCodesJoined (c0 : Char) (text : List Char) : String :=
  String.intercalate "," (sortedUnique (allCodeMatches c0 text))

example :
    ghs_extract "H302 H315 H319 P264 P270 H302 H315 H319 P264 P270".toList
      = ("H302,H315,H319", "P264,P270") := by decide

/-! ## Pipeline B: `cas_to_cid` (pubchem_hazard_scraper.py lines 14-32) -/

/-- What one attempt of `cas_to_cid` / `get_ghs_classification` observes:
a 200 response (with parsed JSON body, resp. raw text), a non-200 status
code, or a raised exception (timeouts, transport errors, ...). -/
inductive BOutcome where
  | ok (body : JVal)
  | status (code : Nat)
  | exc (msg : String)

/-- Default outcome for attempts past the end of the outcome list. -/
def defaultBOutcome : BOutcome := .exc "no outcome"

/-- The value `data["IdentifierList"]["CID"]` as a list, when the fixed JSON path is
present (`"IdentifierList" in data and "CID" in data["IdentifierList"]`). -/
def getCIDs (body : JVal) : Option (List JVal) :=
  if jHasKey body "IdentifierList" && jHasKey (jGetD body "IdentifierList") "CID" then
    some (jArrElems (jGetD (jGetD body "IdentifierList") "CID"))
  else
    none

/-- Result of a `cas_to_cid` run. -/
structure CasOut where
  result : Option JVal
  sleeps : List ℚ
  attempts : Nat

/-- The body of `cas_to_cid`'s retry loop, by remaining fuel.  On 200 the
function returns `CID[0]` if the path is present and the list non-empty; a
present path with an empty list raises `IndexError` inside the `try`, which
the bare `except` catches, so it behaves like any other caught exception:
log, sleep `delay`, continue.  On 404 it returns `None`; on 503 and on
exceptions it sleeps `delay` and retries; the loop falling through returns
`None`. -/
def cas_to_cid_go (outcomes : List BOutcome) (delay : ℚ) : Nat → Nat → CasOut
  | 0, _ => ⟨none, [], 0⟩
  | fuel + 1, attempt =>
    match outcomes.getD attempt defaultBOutcome with
    | .ok body =>
      match getCIDs body with
      | some (c :: _) => ⟨some c, [], 1⟩
      | some [] =>
        let r := cas_to_cid_go outcomes delay fuel (attempt + 1)
        ⟨r.result, delay :: r.sleeps, r.attempts + 1⟩
      | none => ⟨none, [], 1⟩
    | .status code =>
      if code == 404 then ⟨none, [], 1⟩
      else
        let r := cas_to_cid_go outcomes delay fuel (attempt + 1)
        ⟨r.result, delay :: r.sleeps, r.attempts + 1⟩
    | .exc _ =>
      let r := cas_to_cid_go outcomes delay fuel (attempt + 1)
      ⟨r.result, delay :: r.sleeps, r.attempts + 1⟩

/-- Model of `cas_to_cid(session, cas_number, retries, delay)`, driven by the attempt
outcomes the session would produce (default `retries=3`, `delay=1.0`). -/
def cas_to_cid (outcomes : List BOutcome) (retries : Nat := 3) (delay : ℚ := 1) : CasOut :=
  cas_to_cid_go outcomes delay retries 0

example :
    (cas_to_cid [.status 503, .status 503, .status 503] 3 1).result = none := rfl
example :
    (cas_to_cid [.status 503, .status 503, .status 503] 3 1).sleeps = [1, 1, 1] := rfl
example :
    (cas_to_cid [.ok (.obj [("IdentifierList", .obj [("CID", .arr [.num 2244])])])] 3 1).result
      = some (.num 2244) := rfl

/-! ## Pipeline B: `get_ghs_classification`
(pubchem_hazard_scraper.py lines 35-55) -/

/-- One attempt's outcome for `get_ghs_classification`: a 200 response whose
text is `body`, a non-200 status, or a raised exception. -/
inductive GOutcome where
  | ok (body : List Char)
  | status (code : Nat)
  | exc (msg : String)
deriving DecidableEq

/-- Default outcome for attempts past the end of the outcome list. -/
def defaultGOutcome : GOutcome := .exc "no outcome"

/-- Result of a `get_ghs_classification` run: the returned pair, the sleeps
awaited, and the number of attempts executed. -/
structure GhsOut where
  result : String × String
  sleeps : List ℚ
  attempts : Nat

/-- The body of `get_ghs_classification`'s retry loop, by remaining fuel.
On 200 it returns `ghs_extract` of the text; on 404 it returns `("", "")`;
on 503 it logs and falls through to the sleep; any other status matches no
branch and also falls through to the sleep; exceptions are caught and fall
through to the sleep; the loop falling through returns `("", "")`. -/
def get_ghs_go (outcomes : List GOutcome) (delay : ℚ) : Nat → Nat → GhsOut
  | 0, _ => ⟨("", ""), [], 0⟩
  | fuel + 1, attempt =>
    match outcomes.getD attempt defaultGOutcome with
    | .ok body => ⟨ghs_extract body, [], 1⟩
    | .status code =>
      if code == 404 then ⟨("", ""), [], 1⟩
      else
        let r := get_ghs_go outcomes delay fuel (attempt + 1)
        ⟨r.result, delay :: r.sleeps, r.attempts + 1⟩
    | .exc _ =>
      let r := get_ghs_go outcomes delay fuel (attempt + 1)
      ⟨r.result, delay :: r.sleeps, r.attempts + 1⟩

/-- Model of `get_ghs_classification(session, cid, retries, delay)`, driven by the
attempt outcomes the session would produce. -/
def get_ghs_classification (outcomes : List GOutcome) (retries : Nat := 3)
    (delay : ℚ := 1) : GhsOut :=
  get_ghs_go outcomes delay retries 0

example :
    (get_ghs_classification [.status 500, .status 500, .status 500] 3 1).result
      = ("", "") := rfl
example :
    (get_ghs_classification [.status 500, .status 500, .status 500] 3 1).attempts = 3 := rfl

/-! ## Pipeline A: `get_pubchem_cid` (get_toxinfo_by_cas6.py lines 39-45) -/

/-- The body of `get_pubchem_cid` applied to what `fetch_url` returned.
`Except.error` models an uncaught Python exception: when `fetch_url` fell
through and returned `None`, the test `'IdentifierList' in data` raises
`TypeError`; when the path is present but the `CID` list is empty,
`data['IdentifierList']['CID'][0]` raises `IndexError`.  `Except.ok none`
models the function's `return None` ("no identifier found"). -/
def get_pubchem_cid_of (data : Option JVal) : Except String (Option JVal) :=
  match data with
  | none => .error "TypeError: argument of type 'NoneType' is not iterable"
  | some d =>
    match getCIDs d with
    | some (c :: _) => .ok (some c)
    | some [] => .error "IndexError: list index out of range"
    | none => .ok none

/-- Model of `get_pubchem_cid(session, cas_number)`: fetch then extract. -/
def get_pubchem_cid (outcomes : List AOutcome) (retries : Nat := 3) :
    Except String (Option JVal) :=
  get_pubchem_cid_of (fetch_url outcomes retries).result

example :
    get_pubchem_cid [.ok (.obj [("IdentifierList", .obj [("CID", .arr [.num 2244, .num 1])])])] 3
      = .ok (some (.num 2244)) := rfl
example :
    get_pubchem_cid [.ok (.obj [("Fault", .str "x")])] 3 = .ok none := rfl
example :
    get_pubchem_cid [.ok (.obj [("IdentifierList", .obj [("CID", .arr [])])])] 3
      = .error "IndexError: list index out of range" := rfl

/-! ## Pipeline A: `extract_tox_data` (get_toxinfo_by_cas6.py lines 98-120)

The nested PubChem record is a tree of sections.  A section may lack its
`TOCHeading` (modelled by `Option String`); an absent `Information` or
`Section` key behaves exactly like the empty list (the Python guards
`if 'Information' in section` / `if 'Section' in section` only skip empty
iterations), so those fields are embedded as lists with `[]` for absent.
Each entry of `Information` contributes the list of `item['String']` values
of its `Value.StringWithMarkup` list, `[]` when `Value`/`StringWithMarkup`
is absent.  `SecList` is an unbundled list of sections so that all
recursions stay structural (and hence kernel-computable). -/

mutual

inductive Sec where
  | mk (toc : Option String) (information : List (List String)) (children : SecList)

inductive SecList where
  | nil
  | cons (head : Sec) (tail : SecList)

end

/-- The `TOCHeading` of a section, if present. -/
def Sec.toc : Sec → Option String
  | .mk t _ _ => t

/-- The string leaves directly attached to a section: the Python loop
`for info in section['Information']: ... tox_data[heading].extend(...)`
starting from the empty list. -/
def Sec.leaves : Sec → List String
  | .mk _ information _ => information.foldl (fun acc ss => acc ++ ss) []

/-- The keyword list of `extract_tox_data` (line 103). -/
def tox_keywords : List String :=
  ["tox", "safety", "hazard", "health", "exposure", "risk", "carcinogen"]

/-- Python `str.lower()`.  (The headings are ASCII; `Char.toLower` lowers
exactly the ASCII uppercase letters.) -/
def pyLower (s : String) : String := String.mk (s.data.map Char.toLower)

/-- The test `any(keyword in section['TOCHeading'].lower() for keyword in tox_keywords)`. -/
def heading_matches (h : String) : Bool :=
  tox_keywords.any (fun kw => strContainsL (pyLower h).data kw.data)

/-- The condition of line 106: the section has a `TOCHeading` and it
(case-insensitively) contains a toxicology keyword. -/
def secMatches (s : Sec) : Bool :=
  match s.toc with
  | none => false
  | some h => heading_matches h

/-- The result dictionary `tox_data`: insertion-ordered string-keyed map,
with Python-dict assignment semantics. -/
abbrev ToxDict := List (String × List String)

/-- Python `k in d` for the result dict. -/
def dictHasKey (d : ToxDict) (k : String) : Bool :=
  d.any (fun kv => kv.1 == k)

/-- Python `d[k] = v`: replace in place if the key exists, else append. -/
def dictSet (d : ToxDict) (k : String) (v : List String) : ToxDict :=
  if dictHasKey d k then
    d.map (fun kv => if kv.1 == k then (k, v) else kv)
  else
    d ++ [(k, v)]

/-- Python `d[k]`, as an `Option`. -/
def dictLookup (d : ToxDict) (k : String) : Option (List String) :=
  (d.find? (fun kv => kv.1 == k)).map (fun kv => kv.2)

/-- Python `d[k]` with default `[]` (used for `tox_data[heading].extend`,
where the key was just assigned). -/
def dictGetD (d : ToxDict) (k : String) : List String :=
  (dictLookup d k).getD []

mutual

/-- Model of `process_section` (lines 105-115): if the section has a matching
heading, reset `tox_data[heading]` to `[]`, extend it with each
information entry's strings, then recurse into the child sections.  A
section without a matching heading contributes nothing and its children
are never visited. -/
def process_section (s : Sec) (d : ToxDict) : ToxDict :=
  match s with
  | .mk none _ _ => d
  | .mk (some h) information children =>
    if heading_matches h then
      let d1 := dictSet d h []
      let d2 := information.foldl
        (fun dd ss => dictSet dd h (dictGetD dd h ++ ss)) d1
      process_secs children d2
    else d

/-- The loop `for subsection in section['Section']: process_section(...)`
(and the top-level loop of lines 117-118). -/
def process_secs (l : SecList) (d : ToxDict) : ToxDict :=
  match l with
  | .nil => d
  | .cons s rest => process_secs rest (process_section s d)

end

/-- The whole fetched compound record: `data['Record']['Section']` when both
keys are present. -/
structure RawDoc where
  record_sections : Option SecList

/-- Model of `extract_tox_data(data)` (lines 98-120). -/
def extract_tox_data (doc : RawDoc) : ToxDict :=
  match doc.record_sections with
  | none => []
  | some secs => process_secs secs []

example :
    extract_tox_data ⟨some (.cons (.mk (some "Toxicity") [["a", "b"]] .nil) .nil)⟩
      = [("Toxicity", ["a", "b"])] := rfl

mutual

/-- The section nodes `process_section` actually visits with a matching
heading, in visit (pre-)order: a matching node followed by the visited
nodes of its children; a non-matching node is pruned together with its
whole subtree. -/
def visitedSec (s : Sec) : List Sec :=
  match s with
  | .mk none _ _ => []
  | .mk (some h) information children =>
    if heading_matches h then
      Sec.mk (some h) information children :: visitedList children
    else []

/-- Concatenation of `visitedSec` over a section list, in order. -/
def visitedList (l : SecList) : List Sec :=
  match l with
  | .nil => []
  | .cons s rest => visitedSec s ++ visitedList rest

end

/-- The visited matching nodes of a whole document. -/
def visitedDoc (doc : RawDoc) : List Sec :=
  match doc.record_sections with
  | none => []
  | some secs => visitedList secs

/-- The last element of `l` whose heading is `k`, if any. -/
def lastMatch (k : String) : List Sec → Option Sec
  | [] => none
  | s :: rest =>
    (lastMatch k rest).or (if s.toc == some k then some s else none)

theorem lastMatch_append (k : String) (l₁ l₂ : List Sec) :
    lastMatch k (l₁ ++ l₂) = (lastMatch k l₂).or (lastMatch k l₁) := by
  induction l₁ with
  | nil => simp [lastMatch, Option.or_none]
  | cons s rest ih =>
    simp only [List.cons_append, lastMatch, List.append_eq]
    rw [ih, Option.or_assoc]

theorem lastMatch_isSome (k : String) (l : List Sec) :
    (lastMatch k l).isSome = l.any (fun s => s.toc == some k) := by
  induction l with
  | nil => rfl
  | cons s rest ih =>
    simp only [lastMatch, List.any_cons, Option.isSome_or, ih]
    by_cases hk : (s.toc == some k) = true <;> simp [hk, Bool.or_comm]

/-! Dictionary lemmas. -/

theorem dictHasKey_eq_isSome (d : ToxDict) (k : String) :
    dictHasKey d k = (dictLookup d k).isSome := by
  induction d with
  | nil => rfl
  | cons kv rest ih =>
    simp only [dictHasKey, List.any_cons, dictLookup, List.find?_cons]
    by_cases h : (kv.1 == k) = true
    · simp [h]
    · simp only [Bool.not_eq_true] at h
      simp only [h, Bool.false_or]
      simpa [dictHasKey, dictLookup] using ih

theorem dictLookup_cons_pos (kv : String × List String) (rest : ToxDict) (k : String)
    (h : (kv.1 == k) = true) : dictLookup (kv :: rest) k = some kv.2 := by
  simp [dictLookup, List.find?_cons, h]

theorem dictLookup_cons_neg (kv : String × List String) (rest : ToxDict) (k : String)
    (h : (kv.1 == k) = false) : dictLookup (kv :: rest) k = dictLookup rest k := by
  simp [dictLookup, List.find?_cons, h]

theorem dictLookup_map_set (d : ToxDict) (k k' : String) (v : List String) :
    dictLookup (d.map (fun kv => if kv.1 == k then (k, v) else kv)) k'
      = if k' = k then Option.map (fun _ => v) (dictLookup d k)
        else dictLookup d k' := by
  induction d with
  | nil => simp [dictLookup]
  | cons kv rest ih =>
    rcases kv with ⟨a, b⟩
    by_cases h1 : a = k
    · have e1 : (((a, b) : String × List String).1 == k) = true := by simp [h1]
      have hhead : List.map (fun kv => if kv.1 == k then (k, v) else kv) ((a, b) :: rest)
          = (k, v) :: List.map (fun kv => if kv.1 == k then (k, v) else kv) rest := by
        simp [e1, h1]
      rw [hhead]
      by_cases h2 : k' = k
      · have e2 : (((k, v) : String × List String).1 == k') = true := by simp [h2]
        rw [dictLookup_cons_pos _ _ _ e2, if_pos h2,
          dictLookup_cons_pos _ _ _ e1]
        rfl
      · have e2 : (((k, v) : String × List String).1 == k') = false := by
          simp only [beq_eq_false_iff_ne]
          exact fun hh => h2 hh.symm
        have e3 : (((a, b) : String × List String).1 == k') = false := by
          simp only [beq_eq_false_iff_ne]
          rw [h1]
          exact fun hh => h2 hh.symm
        rw [dictLookup_cons_neg _ _ _ e2, dictLookup_cons_neg _ _ _ e3, ih,
          if_neg h2, if_neg h2]
    · have e1 : (((a, b) : String × List String).1 == k) = false := by
        simp only [beq_eq_false_iff_ne]
        exact h1
      have hhead : List.map (fun kv => if kv.1 == k then (k, v) else kv) ((a, b) :: rest)
          = (a, b) :: List.map (fun kv => if kv.1 == k then (k, v) else kv) rest := by
        simp [e1, h1]
      rw [hhead]
      by_cases h3 : a = k'
      · have e2 : (((a, b) : String × List String).1 == k') = true := by simp [h3]
        have hne : ¬k' = k := fun hkk => h1 (h3.trans hkk)
        rw [dictLookup_cons_pos _ _ _ e2, if_neg hne, dictLookup_cons_pos _ _ _ e2]
      · have e2 : (((a, b) : String × List String).1 == k') = false := by
          simp only [beq_eq_false_iff_ne]
          exact h3
        rw [dictLookup_cons_neg _ _ _ e2, dictLookup_cons_neg _ _ _ e2, ih]
        by_cases h2 : k' = k
        · rw [if_pos h2, if_pos h2, dictLookup_cons_neg _ _ _ e1]
        · rw [if_neg h2, if_neg h2]

theorem dictLookup_append_single (d : ToxDict) (k k' : String) (v : List String) :
    dictLookup (d ++ [(k, v)]) k'
      = (dictLookup d k').or (if k' = k then some v else none) := by
  induction d with
  | nil =>
    rw [List.nil_append]
    by_cases h : k' = k
    · have e : (((k, v) : String × List String).1 == k') = true := by simp [h]
      rw [dictLookup_cons_pos _ _ _ e, if_pos h]
      simp [dictLookup]
    · have e : (((k, v) : String × List String).1 == k') = false := by
        simp only [beq_eq_false_iff_ne]
        exact fun hh => h hh.symm
      rw [dictLookup_cons_neg _ _ _ e, if_neg h]
      simp [dictLookup]
  | cons kv rest ih =>
    rw [List.cons_append]
    by_cases h3 : (kv.1 == k') = true
    · rw [dictLookup_cons_pos _ _ _ h3, dictLookup_cons_pos _ _ _ h3]
      rfl
    · have h3' : (kv.1 == k') = false := by simpa using h3
      rw [dictLookup_cons_neg _ _ _ h3', dictLookup_cons_neg _ _ _ h3', ih]

theorem dictLookup_set (d : ToxDict) (k k' : String) (v : List String) :
    dictLookup (dictSet d k v) k' = if k' = k then some v else dictLookup d k' := by
  rw [dictSet]
  by_cases hk : dictHasKey d k = true
  · rw [if_pos hk, dictLookup_map_set]
    by_cases h2 : k' = k
    · rw [if_pos h2, if_pos h2]
      rw [dictHasKey_eq_isSome] at hk
      obtain ⟨w, hw⟩ := Option.isSome_iff_exists.mp hk
      rw [hw]
      rfl
    · rw [if_neg h2, if_neg h2]
  · have hk' : dictHasKey d k = false := by simpa using hk
    rw [if_neg (by simp [hk']), dictLookup_append_single]
    by_cases h2 : k' = k
    · rw [if_pos h2]
      have hnone : dictLookup d k' = none := by
        rw [dictHasKey_eq_isSome] at hk'
        rw [h2]
        cases hl : dictLookup d k
        · rfl
        · rw [hl] at hk'; cases hk'
      rw [hnone, if_pos h2]
      rfl
    · rw [if_neg h2, if_neg h2, Option.or_none]

/-- Effect of the `tox_data[heading].extend(...)` loop on lookups: at the
heading it accumulates the information strings onto the current value, and
it touches no other key. -/
theorem dictLookup_foldExtend (information : List (List String)) (d : ToxDict)
    (h k : String) (acc : List String)
    (hacc : dictLookup d h = some acc) :
    dictLookup (information.foldl (fun dd ss => dictSet dd h (dictGetD dd h ++ ss)) d) k
      = if k = h then some (information.foldl (fun a ss => a ++ ss) acc)
        else dictLookup d k := by
  induction information generalizing d acc with
  | nil =>
    by_cases hk : k = h
    · rw [List.foldl_nil, if_pos hk, List.foldl_nil, hk, hacc]
    · rw [List.foldl_nil, if_neg hk]
  | cons ss rest ih =>
    rw [List.foldl_cons]
    have hget : dictGetD d h = acc := by rw [dictGetD, hacc]; rfl
    have hstep : dictLookup (dictSet d h (dictGetD d h ++ ss)) h = some (acc ++ ss) := by
      rw [dictLookup_set, if_pos rfl, hget]
    rw [ih (dictSet d h (dictGetD d h ++ ss)) (acc ++ ss) hstep]
    by_cases hk : k = h
    · rw [if_pos hk, if_pos hk, List.foldl_cons]
    · rw [if_neg hk, if_neg hk, dictLookup_set, if_neg hk]

/-- The value the extractor holds for `k` after processing `v`, given the
value `dflt` it held before: the leaves of the last visited matching node
with heading `k`, or `dflt` if there is none. -/
def lastLeaves (k : String) (v : List Sec) (dflt : Option (List String)) :
    Option (List String) :=
  match lastMatch k v with
  | some t => some t.leaves
  | none => dflt

theorem lastLeaves_append (k : String) (a b : List Sec) (dflt : Option (List String)) :
    lastLeaves k (a ++ b) dflt = lastLeaves k b (lastLeaves k a dflt) := by
  simp only [lastLeaves, lastMatch_append]
  cases lastMatch k b <;> cases lastMatch k a <;> rfl

mutual

/-- Characterization of `process_section` on the result dictionary: the
value at any key `k` afterwards is the leaves of the last visited matching
node with heading `k`, the prior value when there is none. -/
theorem lookup_process_section (s : Sec) (d : ToxDict) (k : String) :
    dictLookup (process_section s d) k
      = lastLeaves k (visitedSec s) (dictLookup d k) := by
  match s with
  | .mk none information children =>
    simp [process_section, visitedSec, lastLeaves, lastMatch]
  | .mk (some h) information children =>
    by_cases hm : heading_matches h = true
    · have hproc : process_section (.mk (some h) information children) d
          = process_secs children
              (information.foldl (fun dd ss => dictSet dd h (dictGetD dd h ++ ss))
                (dictSet d h [])) := by
        simp [process_section, hm]
      have hvis : visitedSec (.mk (some h) information children)
          = .mk (some h) information children :: visitedList children := by
        simp [visitedSec, hm]
      have hacc : dictLookup (dictSet d h []) h = some [] := by
        rw [dictLookup_set, if_pos rfl]
      have hd2 : ∀ k', dictLookup
            (information.foldl (fun dd ss => dictSet dd h (dictGetD dd h ++ ss))
              (dictSet d h [])) k'
          = if k' = h then some ((Sec.mk (some h) information children).leaves)
            else dictLookup d k' := by
        intro k'
        rw [dictLookup_foldExtend information (dictSet d h []) h k' [] hacc]
        by_cases hk : k' = h
        · rw [if_pos hk, if_pos hk]
          rfl
        · rw [if_neg hk, if_neg hk, dictLookup_set, if_neg hk]
      rw [hproc, hvis, lookup_process_secs children _ k]
      simp only [lastLeaves, lastMatch]
      cases hlm : lastMatch k (visitedList children) with
      | some t => rfl
      | none =>
        simp only [Option.none_or]
        by_cases hk : h = k
        · have : ((Sec.mk (some h) information children).toc == some k) = true := by
            simp [Sec.toc, hk]
          rw [this, hd2 k]
          simp [if_pos hk.symm]
        · have : ((Sec.mk (some h) information children).toc == some k) = false := by
            simp [Sec.toc]
            exact hk
          rw [this, hd2 k]
          have hkh : ¬k = h := fun hh => hk hh.symm
          simp [hkh]
    · have hm' : heading_matches h = false := by simpa using hm
      simp [process_section, visitedSec, hm', lastLeaves, lastMatch]

/-- The lemma `lookup_process_section` lifted over a section list. -/
theorem lookup_process_secs (l : SecList) (d : ToxDict) (k : String) :
    dictLookup (process_secs l d) k
      = lastLeaves k (visitedList l) (dictLookup d k) := by
  match l with
  | .nil => simp [process_secs, visitedList, lastLeaves, lastMatch]
  | .cons s rest =>
    have h1 : process_secs (.cons s rest) d = process_secs rest (process_section s d) := by
      simp [process_secs]
    have h2 : visitedList (.cons s rest) = visitedSec s ++ visitedList rest := by
      simp [visitedList]
    rw [h1, h2, lookup_process_secs rest _ k, lookup_process_section s d k,
      lastLeaves_append]

end

/-! ## Pipeline B: `main`'s batching loop (pubchem_hazard_scraper.py 79-95) -/

/-- An awaited event of `main`'s loop: a batch gathered concurrently, or the
fixed inter-batch pause. -/
inductive BatchEv (α : Type) where
  | batch (tasks : List α)
  | pause
deriving DecidableEq

/-- The loop of `main` (lines 83-95): accumulate each row's task into `buf`;
once `len(tasks) >= batch_size`, gather the whole batch, sleep the pause,
and start a fresh batch; after the loop, gather a non-empty leftover batch
without a pause. -/
def main_batches_go {α : Type} (b : Nat) : List α → List α → List (BatchEv α)
  | [], buf => if buf.isEmpty then [] else [.batch buf]
  | r :: rs, buf =>
    if b ≤ (buf ++ [r]).length then
      .batch (buf ++ [r]) :: .pause :: main_batches_go b rs []
    else
      main_batches_go b rs (buf ++ [r])

/-- The batch/pause trace of `main(input_csv, output_csv, batch_size, pause)`
over its rows. -/
def main_batches {α : Type} (rows : List α) (b : Nat) : List (BatchEv α) :=
  main_batches_go b rows []

/-- The spec's description of the batching: consecutive groups of exactly
`b` rows, each full group followed by the pause, and a final partial group
(fewer than `b` rows) awaited without a trailing pause. -/
def specBatches {α : Type} (b : Nat) : List α → List (BatchEv α)
  | [] => []
  | r :: rs =>
    if h : 0 < b ∧ b ≤ (r :: rs).length then
      .batch ((r :: rs).take b) :: .pause :: specBatches b ((r :: rs).drop b)
    else
      [.batch (r :: rs)]
termination_by l => l.length
decreasing_by
  simp only [List.length_drop]
  omega

theorem specBatches_step {α : Type} (b : Nat) (hb : 0 < b) (l : List α)
    (hl : b ≤ l.length) :
    specBatches b l = .batch (l.take b) :: .pause :: specBatches b (l.drop b) := by
  match l with
  | [] => simp at hl; omega
  | r :: rs => rw [specBatches, dif_pos ⟨hb, hl⟩]

theorem specBatches_small {α : Type} (b : Nat) (l : List α)
    (hl : l.length < b) (hne : l ≠ []) :
    specBatches b l = [.batch l] := by
  match l with
  | [] => exact absurd rfl hne
  | r :: rs =>
    rw [specBatches, dif_neg]
    intro h
    omega

theorem main_batches_go_eq_spec {α : Type} (b : Nat) (hb : 0 < b) :
    ∀ (rows buf : List α), buf.length < b →
      main_batches_go b rows buf = specBatches b (buf ++ rows) := by
  intro rows
  induction rows with
  | nil =>
    intro buf hbuf
    rw [main_batches_go, List.append_nil]
    by_cases he : buf = []
    · subst he
      simp [specBatches]
    · rw [if_neg (by simpa using he), specBatches_small b buf hbuf he]
  | cons r rs ih =>
    intro buf hbuf
    rw [main_batches_go]
    by_cases hfull : b ≤ (buf ++ [r]).length
    · rw [if_pos hfull]
      have hlen : (buf ++ [r]).length = b := by
        simp at hfull ⊢
        omega
      have hassoc : buf ++ r :: rs = (buf ++ [r]) ++ rs := by simp
      rw [hassoc, specBatches_step b hb ((buf ++ [r]) ++ rs)
          (by rw [List.length_append, hlen]; omega),
        List.take_left' hlen, List.drop_left' hlen, ih [] (by simpa using hb)]
      rfl
    · rw [if_neg hfull]
      have hlen : (buf ++ [r]).length < b := by
        simp at hfull ⊢
        omega
      have hassoc : buf ++ r :: rs = (buf ++ [r]) ++ rs := by simp
      rw [hassoc, ih (buf ++ [r]) hlen]

/-! ## Batch orchestrators' order preservation
(get_toxinfo_by_cas6.py lines 165-168; pubchem_hazard_scraper.py 97-99) -/

/-- Model of `asyncio.gather` with an arbitrary completion order: tasks are launched
for indices `0..n-1`; they complete in the order given by `order` (a
permutation of the indices), each completion storing its result in its own
slot; the slot list is the returned sequence. -/
def gatherSlots {α : Type} (n : Nat) (f : Nat → α) (order : List Nat) : List (Option α) :=
  order.foldl (fun slots i => slots.set i (some (f i))) (List.replicate n none)

/-- Model of `get_tox_data_for_cas_numbers(cas_numbers)`: one `process_cas_number`
task per CAS number (abstracted as `process`), gathered under completion
order `order`. -/
def get_tox_data_for_cas_numbers {α : Type} (process : String → α)
    (cas_numbers : List String) (order : List Nat) : List (Option α) :=
  gatherSlots cas_numbers.length (fun i => process (cas_numbers.getD i "")) order

theorem gather_foldl_getElem {α : Type} (f : Nat → α) (order : List Nat)
    (init : List (Option α)) (j : Nat)
    (hrange : ∀ i ∈ order, i < init.length) :
    (order.foldl (fun slots i => slots.set i (some (f i))) init)[j]?
      = if j ∈ order then some (some (f j)) else init[j]? := by
  induction order generalizing init with
  | nil => simp
  | cons i rest ih =>
    rw [List.foldl_cons]
    have hrange' : ∀ x ∈ rest, x < (init.set i (some (f i))).length := by
      intro x hx
      rw [List.length_set]
      exact hrange x (List.mem_cons_of_mem i hx)
    rw [ih (init.set i (some (f i))) hrange']
    by_cases hjr : j ∈ rest
    · rw [if_pos hjr, if_pos (List.mem_cons_of_mem i hjr)]
    · rw [if_neg hjr]
      by_cases hji : j = i
      · subst hji
        rw [List.getElem?_set_self (hrange j (List.mem_cons_self j rest)),
          if_pos (List.mem_cons_self j rest)]
      · rw [List.getElem?_set_ne (fun hh => hji hh.symm),
          if_neg (by simp [hji, hjr])]

theorem foldl_set_length {α : Type} (f : Nat → α) (order : List Nat) :
    ∀ init : List (Option α),
      (order.foldl (fun slots i => slots.set i (some (f i))) init).length
        = init.length := by
  induction order with
  | nil => intro init; rfl
  | cons x xs ih =>
    intro init
    rw [List.foldl_cons, ih (init.set x (some (f x))), List.length_set]

theorem gatherSlots_length {α : Type} (n : Nat) (f : Nat → α) (order : List Nat) :
    (gatherSlots n f order).length = n := by
  rw [gatherSlots, foldl_set_length, List.length_replicate]

/-- Slot-indexed gathering is insensitive to the completion order: the
result sequence equals the task sequence, position by position. -/
theorem gatherSlots_eq_map {α : Type} (n : Nat) (f : Nat → α) (order : List Nat)
    (hperm : order.Perm (List.range n)) :
    gatherSlots n f order = (List.range n).map (fun i => some (f i)) := by
  apply List.ext_getElem?
  intro j
  have hmem : ∀ i, i ∈ order ↔ i < n := by
    intro i
    rw [hperm.mem_iff, List.mem_range]
  rw [gatherSlots, gather_foldl_getElem f order _ j
    (by intro i hi; rw [List.length_replicate]; exact (hmem i).mp hi)]
  by_cases hj : j < n
  · rw [if_pos ((hmem j).mpr hj), List.getElem?_map, List.getElem?_range hj]
    rfl
  · rw [if_neg (fun hh => hj ((hmem j).mp hh)), List.getElem?_map]
    have h1 : (List.replicate n (none : Option α))[j]? = none := by
      rw [List.getElem?_replicate, if_neg hj]
    have h2 : (List.range n)[j]? = none := by
      rw [List.getElem?_eq_none]
      rw [List.length_range]
      omega
    rw [h1, h2]
    rfl

/-- The write-back loop of `main` (lines 97-99): each gathered result
`(idx, hazards, precautions)` is written to table row `idx`
(`df.at[idx, "Hazards"] = hazards` etc.); the table keeps just the two
written columns per row. -/
def writeBack (t : List (String × String)) :
    List (Nat × (String × String)) → List (String × String)
  | [] => t
  | (i, hp) :: rest => writeBack (t.set i hp) rest

theorem writeBack_length (res : List (Nat × (String × String))) :
    ∀ t : List (String × String), (writeBack t res).length = t.length := by
  induction res with
  | nil => intro t; rfl
  | cons x rest ih =>
    intro t
    rcases x with ⟨i, hp⟩
    rw [writeBack, ih (t.set i hp), List.length_set]

theorem writeBack_getElem_not_mem (res : List (Nat × (String × String))) :
    ∀ (t : List (String × String)) (j : Nat), j ∉ res.map (fun x => x.1) →
      (writeBack t res)[j]? = t[j]? := by
  induction res with
  | nil => intro t j _; rfl
  | cons x rest ih =>
    intro t j hj
    rcases x with ⟨i, hp⟩
    rw [List.map_cons, List.mem_cons] at hj
    push_neg at hj
    rw [writeBack, ih (t.set i hp) j hj.2, List.getElem?_set_ne (fun hh => hj.1 hh.symm)]

theorem writeBack_getElem_mem (res : List (Nat × (String × String))) :
    ∀ (t : List (String × String)) (j : Nat) (hp : String × String),
      (res.map (fun x => x.1)).Nodup → (j, hp) ∈ res → j < t.length →
      (writeBack t res)[j]? = some hp := by
  induction res with
  | nil => intro t j hp _ hmem _; cases hmem
  | cons x rest ih =>
    intro t j hp hnodup hmem hlt
    rcases x with ⟨i, hp'⟩
    rw [List.map_cons, List.nodup_cons] at hnodup
    rcases List.mem_cons.mp hmem with heq | htail
    · have hji : j = i := congrArg Prod.fst heq
      have hhp : hp = hp' := congrArg Prod.snd heq
      subst hji
      subst hhp
      rw [writeBack, writeBack_getElem_not_mem rest (t.set j hp) j hnodup.1,
        List.getElem?_set_self hlt]
    · rw [writeBack]
      exact ih (t.set i hp') j hp hnodup.2 htail (by rwa [List.length_set])

/-! ## Pipeline B: `process_row` (pubchem_hazard_scraper.py lines 58-70)

The resolver and classification calls are abstracted as oracles that also
report the list of HTTP requests they issue; `process_row` is instrumented
with the concatenated request log, so "issues no fetch" is expressible. -/

/-- A row's CAS cell: `none` models a missing value (`pd.isna`), `some c`
a present string (Python's `not cas` is true exactly for the empty
string). -/
def casFalsy (cas : Option String) : Bool :=
  match cas with
  | none => true
  | some c => c == ""

/-- Model of `process_row(session, idx, cas)`.  `resolve` plays `cas_to_cid` and
`classify` plays `get_ghs_classification`, each returning its value together
with the requests it issued; `if cid:` is Python truthiness on the resolved
id (false for `None` and for `0`). -/
def process_row (resolve : String → Option Int × List String)
    (classify : Int → (String × String) × List String)
    (idx : Nat) (cas : Option String) : (Nat × (String × String)) × List String :=
  if casFalsy cas then ((idx, ("", "")), [])
  else
    match cas with
    | none => ((idx, ("", "")), [])
    | some c =>
      let rcid := resolve c
      match rcid.1 with
      | some cid =>
        if cid ≠ 0 then
          let rg := classify cid
          ((idx, rg.1), rcid.2 ++ rg.2)
        else ((idx, (noDataStr, noDataStr)), rcid.2)
      | none => ((idx, (noDataStr, noDataStr)), rcid.2)

example :
    process_row (fun _ => (some 2244, ["cid-req"])) (fun _ => (("H302", "P264"), ["ghs-req"]))
      4 (some "50-78-2") = ((4, ("H302", "P264")), ["cid-req", "ghs-req"]) := rfl
example :
    process_row (fun _ => (none, ["cid-req"])) (fun _ => (("H302", "P264"), ["ghs-req"]))
      4 (some "bogus") = ((4, ("No data found", "No data found")), ["cid-req"]) := rfl

/-! ## Retry-loop run lemmas -/

/-- Outcomes after which `fetch_url`'s loop continues to the next attempt
(when one is left): a 503 status or a caught exception. -/
def continueA (o : AOutcome) : Bool :=
  match o with
  | .ok _ => false
  | .status code => code == 503
  | .exc _ => true

theorem fetch_url_go_exhaust (outcomes : List AOutcome) :
    ∀ (fuel attempt : Nat), 0 < fuel →
      (∀ i, attempt ≤ i → i < attempt + fuel - 1 →
        continueA (outcomes.getD i defaultAOutcome) = true) →
      ((∀ m, outcomes.getD (attempt + fuel - 1) defaultAOutcome = .exc m →
          (fetch_url_go outcomes fuel attempt).result = some (errObj m))
       ∧ (outcomes.getD (attempt + fuel - 1) defaultAOutcome = .status 503 →
          (fetch_url_go outcomes fuel attempt).result = none)) := by
  intro fuel
  induction fuel with
  | zero => intro attempt h0; omega
  | succ f ihf =>
    intro attempt _ hcont
    by_cases hf : f = 0
    · subst hf
      have hidx : attempt + 1 - 1 = attempt := by omega
      constructor
      · intro m hm
        rw [hidx] at hm
        simp only [fetch_url_go]
        rw [hm]
        rfl
      · intro hm
        rw [hidx] at hm
        simp only [fetch_url_go]
        rw [hm]
        rfl
    · have hat : continueA (outcomes.getD attempt defaultAOutcome) = true :=
        hcont attempt le_rfl (by omega)
      have hcont' : ∀ i, attempt + 1 ≤ i → i < attempt + 1 + f - 1 →
          continueA (outcomes.getD i defaultAOutcome) = true := by
        intro i h1 h2
        exact hcont i (by omega) (by omega)
      have hidx : attempt + (f + 1) - 1 = attempt + 1 + f - 1 := by omega
      have hrec := ihf (attempt + 1) (by omega) hcont'
      cases hout : outcomes.getD attempt defaultAOutcome with
      | ok body =>
        rw [hout] at hat
        simp [continueA] at hat
      | status code =>
        rw [hout] at hat
        have hcode : (code == 503) = true := hat
        constructor
        · intro m hm
          rw [hidx] at hm
          simp only [fetch_url_go, hout, hcode, if_true]
          exact hrec.1 m hm
        · intro hm
          rw [hidx] at hm
          simp only [fetch_url_go, hout, hcode, if_true]
          exact hrec.2 hm
      | exc msg =>
        have hf' : ¬(f == 0) = true := by simpa using hf
        constructor
        · intro m hm
          rw [hidx] at hm
          simp only [fetch_url_go, hout]
          rw [if_neg hf']
          exact hrec.1 m hm
        · intro hm
          rw [hidx] at hm
          simp only [fetch_url_go, hout]
          rw [if_neg hf']
          exact hrec.2 hm

theorem fetch_url_go_status (outcomes : List AOutcome) :
    ∀ (i : Nat), ∀ (fuel attempt c : Nat), i < fuel →
      (∀ j, j < i → continueA (outcomes.getD (attempt + j) defaultAOutcome) = true) →
      outcomes.getD (attempt + i) defaultAOutcome = .status c →
      (c == 503) = false →
      (fetch_url_go outcomes fuel attempt).result
          = some (errObj ("HTTP error " ++ toString c))
      ∧ (fetch_url_go outcomes fuel attempt).attempts = i + 1 := by
  intro i
  induction i with
  | zero =>
    intro fuel attempt c hfuel _ hst hc
    match fuel, hfuel with
    | f + 1, _ =>
      rw [Nat.add_zero] at hst
      have hc' : ¬(c == 503) = true := by simp [hc]
      constructor
      · simp only [fetch_url_go, hst]
        rw [if_neg hc']
      · simp only [fetch_url_go, hst]
        rw [if_neg hc']
  | succ i' ihi =>
    intro fuel attempt c hfuel hcont hst hc
    match fuel, hfuel with
    | f + 1, _ =>
      have hat : continueA (outcomes.getD attempt defaultAOutcome) = true := by
        have := hcont 0 (by omega)
        simpa using this
      have hcont' : ∀ j, j < i' →
          continueA (outcomes.getD (attempt + 1 + j) defaultAOutcome) = true := by
        intro j hj
        have := hcont (j + 1) (by omega)
        have harith : attempt + (j + 1) = attempt + 1 + j := by omega
        rwa [harith] at this
      have hst' : outcomes.getD (attempt + 1 + i') defaultAOutcome = .status c := by
        have harith : attempt + 1 + i' = attempt + (i' + 1) := by omega
        rwa [harith]
      have hrec := ihi f (attempt + 1) c (by omega) hcont' hst' hc
      cases hout : outcomes.getD attempt defaultAOutcome with
      | ok body =>
        rw [hout] at hat
        simp [continueA] at hat
      | status c2 =>
        rw [hout] at hat
        have hc2 : (c2 == 503) = true := hat
        constructor
        · simp only [fetch_url_go, hout, hc2, if_true]
          exact hrec.1
        · simp only [fetch_url_go, hout, hc2, if_true]
          have : (fetch_url_go outcomes f (attempt + 1)).attempts = i' + 1 := hrec.2
          simp [this]
      | exc msg =>
        have hf : ¬(f == 0) = true := by
          simp
          omega
        constructor
        · simp only [fetch_url_go, hout]
          rw [if_neg hf]
          exact hrec.1
        · simp only [fetch_url_go, hout]
          rw [if_neg hf]
          have : (fetch_url_go outcomes f (attempt + 1)).attempts = i' + 1 := hrec.2
          simp [this]

theorem range_map_pow_shift (a L : Nat) :
    (List.range (L + 1)).map (fun i => (2 : ℚ) ^ (a + i))
      = (2 : ℚ) ^ a :: (List.range L).map (fun i => (2 : ℚ) ^ (a + 1 + i)) := by
  rw [List.range_succ_eq_map, List.map_cons, List.map_map]
  refine congrArg₂ List.cons (by rw [Nat.add_zero]) ?_
  apply List.map_congr_left
  intro i _
  show (2 : ℚ) ^ (a + (i + 1)) = (2 : ℚ) ^ (a + 1 + i)
  have harith : a + (i + 1) = a + 1 + i := by omega
  rw [harith]

theorem fetch_url_go_sleeps (outcomes : List AOutcome) :
    ∀ (fuel attempt : Nat),
      (fetch_url_go outcomes fuel attempt).sleeps
        = (List.range (fetch_url_go outcomes fuel attempt).sleeps.length).map
            (fun i => (2 : ℚ) ^ (attempt + i))
      ∧ (fetch_url_go outcomes fuel attempt).sleeps.length ≤ fuel
      ∧ (fetch_url_go outcomes fuel attempt).attempts ≤ fuel := by
  intro fuel
  induction fuel with
  | zero => intro attempt; exact ⟨rfl, le_rfl, le_rfl⟩
  | succ f ih =>
    intro attempt
    obtain ⟨h1, h2, h3⟩ := ih (attempt + 1)
    cases hout : outcomes.getD attempt defaultAOutcome with
    | ok body =>
      have hshape : fetch_url_go outcomes (f + 1) attempt = ⟨some body, [], 1⟩ := by
        simp only [fetch_url_go, hout]
      rw [hshape]
      exact ⟨rfl, by simp, by simp⟩
    | status code =>
      by_cases hc : (code == 503) = true
      · have hshape : fetch_url_go outcomes (f + 1) attempt
            = ⟨(fetch_url_go outcomes f (attempt + 1)).result,
               (2 : ℚ) ^ attempt :: (fetch_url_go outcomes f (attempt + 1)).sleeps,
               (fetch_url_go outcomes f (attempt + 1)).attempts + 1⟩ := by
          simp only [fetch_url_go, hout, hc, if_true]
        rw [hshape]
        refine ⟨?_, ?_, ?_⟩
        · show (2 : ℚ) ^ attempt :: (fetch_url_go outcomes f (attempt + 1)).sleeps
            = (List.range ((2 : ℚ) ^ attempt ::
                (fetch_url_go outcomes f (attempt + 1)).sleeps).length).map
                (fun i => (2 : ℚ) ^ (attempt + i))
          rw [List.length_cons, range_map_pow_shift, ← h1]
        · show ((2 : ℚ) ^ attempt ::
              (fetch_url_go outcomes f (attempt + 1)).sleeps).length ≤ f + 1
          rw [List.length_cons]
          omega
        · show (fetch_url_go outcomes f (attempt + 1)).attempts + 1 ≤ f + 1
          omega
      · have hc' : ¬(code == 503) = true := hc
        have hshape : fetch_url_go outcomes (f + 1) attempt
            = ⟨some (errObj ("HTTP error " ++ toString code)), [], 1⟩ := by
          simp only [fetch_url_go, hout]
          rw [if_neg hc']
        rw [hshape]
        exact ⟨rfl, by simp, by simp⟩
    | exc msg =>
      by_cases hf : (f == 0) = true
      · have hshape : fetch_url_go outcomes (f + 1) attempt
            = ⟨some (errObj msg), [], 1⟩ := by
          simp only [fetch_url_go, hout, hf, if_true]
        rw [hshape]
        exact ⟨rfl, by simp, by simp⟩
      · have hshape : fetch_url_go outcomes (f + 1) attempt
            = ⟨(fetch_url_go outcomes f (attempt + 1)).result,
               (2 : ℚ) ^ attempt :: (fetch_url_go outcomes f (attempt + 1)).sleeps,
               (fetch_url_go outcomes f (attempt + 1)).attempts + 1⟩ := by
          simp only [fetch_url_go, hout]
          rw [if_neg hf]
        rw [hshape]
        refine ⟨?_, ?_, ?_⟩
        · show (2 : ℚ) ^ attempt :: (fetch_url_go outcomes f (attempt + 1)).sleeps
            = (List.range ((2 : ℚ) ^ attempt ::
                (fetch_url_go outcomes f (attempt + 1)).sleeps).length).map
                (fun i => (2 : ℚ) ^ (attempt + i))
          rw [List.length_cons, range_map_pow_shift, ← h1]
        · show ((2 : ℚ) ^ attempt ::
              (fetch_url_go outcomes f (attempt + 1)).sleeps).length ≤ f + 1
          rw [List.length_cons]
          omega
        · show (fetch_url_go outcomes f (attempt + 1)).attempts + 1 ≤ f + 1
          omega

/-- Outcomes after which `cas_to_cid`'s loop reaches its trailing
`await asyncio.sleep(delay)` and retries: exceptions, non-200/404 statuses,
and a 200 body whose `CID` list is present but empty (its `[0]` raises
`IndexError`, caught by the bare `except`). -/
def casContinue (o : BOutcome) : Bool :=
  match o with
  | .ok body =>
    match getCIDs body with
    | some [] => true
    | _ => false
  | .status code => !(code == 404)
  | .exc _ => true

/-- When every remaining attempt's outcome makes `cas_to_cid` reach its
trailing sleep, the loop exhausts the budget and returns `None`. -/
theorem cas_to_cid_go_exhaust (outcomes : List BOutcome) (delay : ℚ) :
    ∀ (fuel attempt : Nat),
      (∀ i, attempt ≤ i → i < attempt + fuel →
        casContinue (outcomes.getD i defaultBOutcome) = true) →
      (cas_to_cid_go outcomes delay fuel attempt).result = none
      ∧ (cas_to_cid_go outcomes delay fuel attempt).attempts = fuel := by
  intro fuel
  induction fuel with
  | zero => intro attempt _; exact ⟨rfl, rfl⟩
  | succ f ih =>
    intro attempt hcont
    have hat : casContinue (outcomes.getD attempt defaultBOutcome) = true :=
      hcont attempt le_rfl (by omega)
    have hrec := ih (attempt + 1) (fun i h1 h2 => hcont i (by omega) (by omega))
    cases hout : outcomes.getD attempt defaultBOutcome with
    | ok body =>
      rw [hout] at hat
      cases hcids : getCIDs body with
      | none =>
        rw [casContinue, hcids] at hat
        cases hat
      | some cids =>
        cases cids with
        | nil =>
          have hshape : cas_to_cid_go outcomes delay (f + 1) attempt
              = ⟨(cas_to_cid_go outcomes delay f (attempt + 1)).result,
                 delay :: (cas_to_cid_go outcomes delay f (attempt + 1)).sleeps,
                 (cas_to_cid_go outcomes delay f (attempt + 1)).attempts + 1⟩ := by
            simp only [cas_to_cid_go, hout, hcids]
          rw [hshape]
          exact ⟨hrec.1, by simp [hrec.2]⟩
        | cons c rest =>
          rw [casContinue, hcids] at hat
          cases hat
    | status code =>
      rw [hout] at hat
      have hcode : ¬(code == 404) = true := by
        rw [casContinue] at hat
        simp at hat
        simp [hat]
      have hshape : cas_to_cid_go outcomes delay (f + 1) attempt
          = ⟨(cas_to_cid_go outcomes delay f (attempt + 1)).result,
             delay :: (cas_to_cid_go outcomes delay f (attempt + 1)).sleeps,
             (cas_to_cid_go outcomes delay f (attempt + 1)).attempts + 1⟩ := by
        simp only [cas_to_cid_go, hout]
        rw [if_neg hcode]
      rw [hshape]
      exact ⟨hrec.1, by simp [hrec.2]⟩
    | exc msg =>
      have hshape : cas_to_cid_go outcomes delay (f + 1) attempt
          = ⟨(cas_to_cid_go outcomes delay f (attempt + 1)).result,
             delay :: (cas_to_cid_go outcomes delay f (attempt + 1)).sleeps,
             (cas_to_cid_go outcomes delay f (attempt + 1)).attempts + 1⟩ := by
        simp only [cas_to_cid_go, hout]
      rw [hshape]
      exact ⟨hrec.1, by simp [hrec.2]⟩

theorem cas_to_cid_go_sleeps (outcomes : List BOutcome) (delay : ℚ) :
    ∀ (fuel attempt : Nat),
      (cas_to_cid_go outcomes delay fuel attempt).sleeps
        = List.replicate (cas_to_cid_go outcomes delay fuel attempt).sleeps.length delay
      ∧ (cas_to_cid_go outcomes delay fuel attempt).sleeps.length ≤ fuel
      ∧ (cas_to_cid_go outcomes delay fuel attempt).attempts ≤ fuel := by
  intro fuel
  induction fuel with
  | zero => intro attempt; exact ⟨rfl, le_rfl, le_rfl⟩
  | succ f ih =>
    intro attempt
    obtain ⟨h1, h2, h3⟩ := ih (attempt + 1)
    have hstep : ∀ out : CasOut,
        out = ⟨(cas_to_cid_go outcomes delay f (attempt + 1)).result,
               delay :: (cas_to_cid_go outcomes delay f (attempt + 1)).sleeps,
               (cas_to_cid_go outcomes delay f (attempt + 1)).attempts + 1⟩ →
        out.sleeps = List.replicate out.sleeps.length delay
        ∧ out.sleeps.length ≤ f + 1 ∧ out.attempts ≤ f + 1 := by
      intro out hout
      subst hout
      refine ⟨?_, ?_, ?_⟩
      · show delay :: (cas_to_cid_go outcomes delay f (attempt + 1)).sleeps
          = List.replicate ((delay :: (cas_to_cid_go outcomes delay f (attempt + 1)).sleeps).length) delay
        rw [List.length_cons, List.replicate_succ, ← h1]
      · show (delay :: (cas_to_cid_go outcomes delay f (attempt + 1)).sleeps).length ≤ f + 1
        rw [List.length_cons]
        omega
      · show (cas_to_cid_go outcomes delay f (attempt + 1)).attempts + 1 ≤ f + 1
        omega
    have hdone : ∀ (r : Option JVal),
        (⟨r, [], 1⟩ : CasOut).sleeps
            = List.replicate (⟨r, [], 1⟩ : CasOut).sleeps.length delay
        ∧ (⟨r, [], 1⟩ : CasOut).sleeps.length ≤ f + 1
        ∧ (⟨r, [], 1⟩ : CasOut).attempts ≤ f + 1 := by
      intro r
      exact ⟨rfl, by simp, by simp⟩
    cases hout : outcomes.getD attempt defaultBOutcome with
    | ok body =>
      cases hcids : getCIDs body with
      | none =>
        have hshape : cas_to_cid_go outcomes delay (f + 1) attempt = ⟨none, [], 1⟩ := by
          simp only [cas_to_cid_go, hout, hcids]
        rw [hshape]
        exact hdone none
      | some cids =>
        cases cids with
        | nil =>
          have hshape : cas_to_cid_go outcomes delay (f + 1) attempt
              = ⟨(cas_to_cid_go outcomes delay f (attempt + 1)).result,
                 delay :: (cas_to_cid_go outcomes delay f (attempt + 1)).sleeps,
                 (cas_to_cid_go outcomes delay f (attempt + 1)).attempts + 1⟩ := by
            simp only [cas_to_cid_go, hout, hcids]
          rw [hshape]
          exact hstep _ rfl
        | cons c rest =>
          have hshape : cas_to_cid_go outcomes delay (f + 1) attempt = ⟨some c, [], 1⟩ := by
            simp only [cas_to_cid_go, hout, hcids]
          rw [hshape]
          exact hdone (some c)
    | status code =>
      by_cases hcode : (code == 404) = true
      · have hshape : cas_to_cid_go outcomes delay (f + 1) attempt = ⟨none, [], 1⟩ := by
          simp only [cas_to_cid_go, hout, hcode, if_true]
        rw [hshape]
        exact hdone none
      · have hshape : cas_to_cid_go outcomes delay (f + 1) attempt
            = ⟨(cas_to_cid_go outcomes delay f (attempt + 1)).result,
               delay :: (cas_to_cid_go outcomes delay f (attempt + 1)).sleeps,
               (cas_to_cid_go outcomes delay f (attempt + 1)).attempts + 1⟩ := by
          simp only [cas_to_cid_go, hout]
          rw [if_neg hcode]
        rw [hshape]
        exact hstep _ rfl
    | exc msg =>
      have hshape : cas_to_cid_go outcomes delay (f + 1) attempt
          = ⟨(cas_to_cid_go outcomes delay f (attempt + 1)).result,
             delay :: (cas_to_cid_go outcomes delay f (attempt + 1)).sleeps,
             (cas_to_cid_go outcomes delay f (attempt + 1)).attempts + 1⟩ := by
        simp only [cas_to_cid_go, hout]
      rw [hshape]
      exact hstep _ rfl

theorem get_ghs_go_status (outcomes : List GOutcome) (delay : ℚ) (c : Nat)
    (hc : ¬(c == 404) = true) :
    ∀ (fuel attempt : Nat),
      (∀ i, attempt ≤ i → i < attempt + fuel →
        outcomes.getD i defaultGOutcome = .status c) →
      (get_ghs_go outcomes delay fuel attempt).result = ("", "")
      ∧ (get_ghs_go outcomes delay fuel attempt).attempts = fuel := by
  intro fuel
  induction fuel with
  | zero => intro attempt _; exact ⟨rfl, rfl⟩
  | succ f ih =>
    intro attempt hcont
    have hout : outcomes.getD attempt defaultGOutcome = .status c :=
      hcont attempt le_rfl (by omega)
    have hrec := ih (attempt + 1) (fun i h1 h2 => hcont i (by omega) (by omega))
    have hshape : get_ghs_go outcomes delay (f + 1) attempt
        = ⟨(get_ghs_go outcomes delay f (attempt + 1)).result,
           delay :: (get_ghs_go outcomes delay f (attempt + 1)).sleeps,
           (get_ghs_go outcomes delay f (attempt + 1)).attempts + 1⟩ := by
      simp only [get_ghs_go, hout]
      rw [if_neg hc]
    rw [hshape]
    exact ⟨hrec.1, by simp [hrec.2]⟩

/-! # Claims -/

/-! ## C1: keyword-section traversal -/

/-- A section with a keyword-matching heading, used as the child of a
non-matching parent in the C1 counterexample. -/
def c1Child : Sec := .mk (some "Toxicity Data") [["acute oral LD50"]] .nil

/-- Document whose only top-level section ("Other Stuff", matching no
toxicology keyword) carries `c1Child` as its sole child. -/
def c1Doc : RawDoc :=
  ⟨some (.cons (.mk (some "Other Stuff") [] (.cons c1Child .nil)) .nil)⟩

/-- C1 counterexample: the claim says a descendant section whose heading
matches a keyword contributes a result entry even when no ancestor matched.
In `c1Doc` the child's heading "Toxicity Data" matches, yet the extracted
result is empty, because `process_section` recurses into `section['Section']`
only inside the branch where the section's own heading matched. -/
theorem claim_c1_counterexample :
    secMatches c1Child = true ∧ extract_tox_data c1Doc = [] :=
  ⟨rfl, rfl⟩

/-- C1 (amended): the keyword-section extractor is pruning, not exhaustive:
it descends into a section's children only when that section's own heading
matched, so a heading has a result entry exactly when some matching node is
reachable from the root through a chain of matching ancestors (the nodes
listed by `visitedDoc`). -/
theorem claim_c1_amended (doc : RawDoc) (k : String) :
    (dictLookup (extract_tox_data doc) k).isSome
      = (visitedDoc doc).any (fun s => s.toc == some k) := by
  cases doc with
  | mk rs =>
    cases rs with
    | none => rfl
    | some secs =>
      have h1 : extract_tox_data ⟨some secs⟩ = process_secs secs [] := rfl
      have h2 : visitedDoc ⟨some secs⟩ = visitedList secs := rfl
      rw [h1, h2, lookup_process_secs secs [] k, ← lastMatch_isSome]
      simp only [lastLeaves]
      cases lastMatch k (visitedList secs) <;> rfl

/-! ## C2: fetch_url after an exhausted retry budget -/

/-- C2 counterexample: a run of `fetch_url` whose three attempts all
observe HTTP 503 consumes the whole budget and returns Python `None`
(the loop falls through without a `return`), not an error marker. -/
theorem claim_c2_counterexample :
    (fetch_url [.status 503, .status 503, .status 503] 3).result = none
    ∧ (fetch_url [.status 503, .status 503, .status 503] 3).attempts = 3 :=
  ⟨rfl, rfl⟩

/-- C2 (amended): after consuming the whole retry budget, `fetch_url`
returns the error marker (with the exception message) only when the final
attempt raised an exception; when the final attempt observed a 503 it
returns `None`. -/
theorem claim_c2_amended (outcomes : List AOutcome) (retries : Nat) (m : String)
    (hpos : 0 < retries)
    (hcont : ∀ i, i < retries - 1 → continueA (outcomes.getD i defaultAOutcome) = true) :
    (outcomes.getD (retries - 1) defaultAOutcome = .exc m →
      (fetch_url outcomes retries).result = some (errObj m))
    ∧ (outcomes.getD (retries - 1) defaultAOutcome = .status 503 →
      (fetch_url outcomes retries).result = none) := by
  have h := fetch_url_go_exhaust outcomes retries 0 hpos
    (fun i _ h2 => hcont i (by omega))
  rw [show (0 : Nat) + retries - 1 = retries - 1 from by omega] at h
  exact ⟨fun hm => h.1 m hm, h.2⟩

theorem claim_c2_witness :
    (0 < 3
      ∧ (fetch_url [.exc "boom", .status 503, .exc "final"] 3).result
          = some (errObj "final"))
    ∧ (fetch_url [.status 503, .exc "x", .status 503] 3).result = none :=
  ⟨⟨by decide, (claim_c2_amended [.exc "boom", .status 503, .exc "final"] 3 "final"
      (by decide) (by decide)).1 rfl⟩,
   (claim_c2_amended [.status 503, .exc "x", .status 503] 3 "unused"
      (by decide) (by decide)).2 rfl⟩

/-! ## C3: the identifier resolver's failure cases -/

/-- A resolver response whose fixed JSON path is present but whose
identifier list is empty. -/
def c3EmptyCIDBody : JVal := .obj [("IdentifierList", .obj [("CID", .arr [])])]

/-- C3 counterexample: on a present path with an empty identifier list,
pipeline A's `get_pubchem_cid` does not return the "no identifier found"
result — `data['IdentifierList']['CID'][0]` raises `IndexError`. -/
theorem claim_c3_counterexample :
    get_pubchem_cid_of (some c3EmptyCIDBody)
        = .error "IndexError: list index out of range"
    ∧ get_pubchem_cid_of (some c3EmptyCIDBody) ≠ .ok none :=
  ⟨rfl, fun h => Except.noConfusion h⟩

/-- C3 (amended): the resolver returns the first element of the identifier
list when the path is present and the list non-empty, and returns "no
identifier found" when the path is missing (which covers fetch results that
are error records); but when the path is present with an empty list,
pipeline A's resolver raises `IndexError` instead of returning `None`,
while pipeline B's `cas_to_cid` catches that error, retries, and only
returns `None` after exhausting its budget. -/
theorem claim_c3_amended :
    (∀ (d c : JVal) (cs : List JVal), getCIDs d = some (c :: cs) →
      get_pubchem_cid_of (some d) = .ok (some c))
    ∧ (∀ d : JVal, getCIDs d = none → get_pubchem_cid_of (some d) = .ok none)
    ∧ (∀ d : JVal, getCIDs d = some [] →
      get_pubchem_cid_of (some d) = .error "IndexError: list index out of range")
    ∧ (∀ (d : JVal) (retries : Nat) (delay : ℚ), getCIDs d = some [] →
      (cas_to_cid (List.replicate retries (.ok d)) retries delay).result = none) := by
  refine ⟨?_, ?_, ?_, ?_⟩
  · intro d c cs h
    simp only [get_pubchem_cid_of, h]
  · intro d h
    simp only [get_pubchem_cid_of, h]
  · intro d h
    simp only [get_pubchem_cid_of, h]
  · intro d retries delay h
    have hcont : ∀ i, 0 ≤ i → i < 0 + retries →
        casContinue ((List.replicate retries (BOutcome.ok d)).getD i defaultBOutcome)
          = true := by
      intro i _ hi
      have hget : (List.replicate retries (BOutcome.ok d)).getD i defaultBOutcome
          = BOutcome.ok d := by
        rw [List.getD, List.get?_eq_getElem?, List.getElem?_replicate, if_pos (by omega)]
        rfl
      rw [hget, casContinue, h]
    exact (cas_to_cid_go_exhaust (List.replicate retries (.ok d)) delay retries 0 hcont).1

theorem claim_c3_witness :
    getCIDs (.obj [("IdentifierList", .obj [("CID", .arr [.num 2244, .num 7])])])
        = some [.num 2244, .num 7]
    ∧ get_pubchem_cid_of
        (some (.obj [("IdentifierList", .obj [("CID", .arr [.num 2244, .num 7])])]))
        = .ok (some (.num 2244))
    ∧ (cas_to_cid (List.replicate 3 (.ok c3EmptyCIDBody)) 3 1).result = none :=
  ⟨rfl,
   claim_c3_amended.1 _ _ _ rfl,
   claim_c3_amended.2.2.2 c3EmptyCIDBody 3 1 rfl⟩

/-! ## C4: backoff shape in both pipelines -/

/-- C4 counterexample: in pipeline B's `cas_to_cid`, the sleep after the
503 on 0-indexed attempt 1 lasts the constant `delay` (default 1 second),
not `2^1 = 2` — the second pipeline has no exponential backoff. -/
theorem claim_c4_counterexample :
    (cas_to_cid [.status 503, .status 503, .status 503] 3 1).sleeps = [1, 1, 1]
    ∧ (cas_to_cid [.status 503, .status 503, .status 503] 3 1).sleeps.getD 1 0
        ≠ (2 : ℚ) ^ 1 :=
  ⟨rfl, by decide⟩

/-- C4 (amended): pipeline A's `fetch_url` sleeps exactly
`2^0, 2^1, 2^2, ...` seconds on its successive retried attempts and
executes at most `retries` attempts; pipeline B's `cas_to_cid` sleeps the
constant `delay` after every retried attempt (no exponential backoff) and
also executes at most `retries` attempts. -/
theorem claim_c4_amended (outcomes : List AOutcome) (boutcomes : List BOutcome)
    (retries : Nat) (delay : ℚ) :
    ((fetch_url outcomes retries).sleeps
        = (List.range (fetch_url outcomes retries).sleeps.length).map
            (fun i => (2 : ℚ) ^ i)
      ∧ (fetch_url outcomes retries).sleeps.length ≤ retries
      ∧ (fetch_url outcomes retries).attempts ≤ retries)
    ∧ ((cas_to_cid boutcomes retries delay).sleeps
        = List.replicate (cas_to_cid boutcomes retries delay).sleeps.length delay
      ∧ (cas_to_cid boutcomes retries delay).attempts ≤ retries) := by
  constructor
  · have h := fetch_url_go_sleeps outcomes retries 0
    simpa [fetch_url] using h
  · have h := cas_to_cid_go_sleeps boutcomes delay retries 0
    exact ⟨h.1, h.2.2⟩

/-! ## C5: non-retryable statuses -/

/-- C5 counterexample: for pipeline B's `get_ghs_classification`, an HTTP
500 (neither 200, 404 nor 503) does not return an error marker on the
attempt that observed it: no branch matches, so the loop sleeps and
retries, consuming all three attempts and returning the plain `("", "")`
pair. -/
theorem claim_c5_counterexample :
    (get_ghs_classification [.status 500, .status 500, .status 500] 3 1).attempts = 3
    ∧ (get_ghs_classification [.status 500, .status 500, .status 500] 3 1).result
        = ("", "") :=
  ⟨rfl, rfl⟩

/-- C5 (amended): pipeline A's `fetch_url` does return
`{'error': 'HTTP error <code>'}` immediately on the first attempt that
observes a status other than 200 and 503, with no further retries; pipeline
B's `get_ghs_classification`, however, treats every status other than 200
and 404 as retryable — it sleeps and retries, and after exhausting the
budget returns `("", "")`, indistinguishable from its 404 result. -/
theorem claim_c5_amended (outcomes : List AOutcome) (goutcomes : List GOutcome)
    (retries i c : Nat) (delay : ℚ) :
    (i < retries →
      (∀ j, j < i → continueA (outcomes.getD j defaultAOutcome) = true) →
      outcomes.getD i defaultAOutcome = .status c →
      (c == 503) = false →
      (fetch_url outcomes retries).result
          = some (errObj ("HTTP error " ++ toString c))
      ∧ (fetch_url outcomes retries).attempts = i + 1)
    ∧ (¬(c == 404) = true →
      (∀ j, j < retries → goutcomes.getD j defaultGOutcome = .status c) →
      (get_ghs_classification goutcomes retries delay).result = ("", "")
      ∧ (get_ghs_classification goutcomes retries delay).attempts = retries) := by
  constructor
  · intro h1 h2 h3 h4
    exact fetch_url_go_status outcomes i retries 0 c h1
      (fun j hj => by simpa using h2 j hj) (by simpa using h3) h4
  · intro hc hall
    exact get_ghs_go_status goutcomes delay c hc retries 0
      (fun j _ hj2 => hall j (by omega))

theorem claim_c5_witness :
    (1 < 3
      ∧ (fetch_url [.status 503, .status 500, .exc "x"] 3).result
          = some (errObj "HTTP error 500")
      ∧ (fetch_url [.status 503, .status 500, .exc "x"] 3).attempts = 2)
    ∧ ((get_ghs_classification [.status 500, .status 500, .status 500] 3 2).result
          = ("", "")
      ∧ (get_ghs_classification [.status 500, .status 500, .status 500] 3 2).attempts
          = 3) :=
  ⟨⟨by decide,
    (claim_c5_amended [.status 503, .status 500, .exc "x"] [] 3 1 500 1).1
      (by decide) (by decide) rfl (by decide)⟩,
   (claim_c5_amended [] [.status 500, .status 500, .status 500] 3 0 500 2).2
      (by decide) (by decide)⟩

/-! ## C6: the regex code extractor -/

/-- C6: on every response body, `get_ghs_classification`'s 200-handler
returns the sentinel pair when the literal substring "No data found"
occurs anywhere in the body, and otherwise returns, for each of `H` and
`P`, the comma-joined, lexicographically sorted, deduplicated list of all
substrings of the body matching the letter followed by exactly three
digits. -/
theorem claim_c6 (text : List Char) :
    (strContainsL text noDataStr.data = true →
      ghs_extract text = (noDataStr, noDataStr))
    ∧ (strContainsL text noDataStr.data = false →
      ghs_extract text = (specCodesJoined 'H' text, specCodesJoined 'P' text)) := by
  constructor
  · intro h
    rw [ghs_extract, if_pos h]
  · intro h
    rw [ghs_extract, if_neg (by simp [h]), specCodesJoined, specCodesJoined,
      sortedUnique_congr (fun s => mem_findallCode_iff 'H' (by decide) text s),
      sortedUnique_congr (fun s => mem_findallCode_iff 'P' (by decide) text s)]

/-- The spec's worked example: the five codes duplicated twice. -/
def c6Example : List Char :=
  "H302 H315 H319 P264 P270 H302 H315 H319 P264 P270".toList

theorem claim_c6_witness :
    strContainsL c6Example noDataStr.data = false
    ∧ ghs_extract c6Example
        = (specCodesJoined 'H' c6Example, specCodesJoined 'P' c6Example)
    ∧ ghs_extract c6Example = ("H302,H315,H319", "P264,P270")
    ∧ strContainsL "No data found here".toList noDataStr.data = true
    ∧ ghs_extract "No data found here".toList = (noDataStr, noDataStr) :=
  ⟨rfl, (claim_c6 c6Example).2 rfl, by decide, rfl,
   (claim_c6 "No data found here".toList).1 rfl⟩

/-! ## C7: batch sizes and pauses -/

/-- C7: for every row list and positive batch size, `main`'s loop awaits
the rows in consecutive groups of exactly `b`, sleeping the pause after
each full batch, and awaits a final partial batch (present exactly when the
row count is not a multiple of `b`) without a trailing pause — this is the
trace `specBatches` built from the spec's description. -/
theorem claim_c7 {α : Type} (rows : List α) (b : Nat) (hb : 0 < b) :
    main_batches rows b = specBatches b rows := by
  rw [main_batches, main_batches_go_eq_spec b hb rows [] (by simpa using hb),
    List.nil_append]

theorem claim_c7_witness :
    0 < 5
    ∧ main_batches (List.range 7) 5 = specBatches 5 (List.range 7)
    ∧ main_batches (List.range 7) 5
        = [.batch [0, 1, 2, 3, 4], .pause, .batch [5, 6]] :=
  ⟨by decide, claim_c7 (List.range 7) 5 (by decide), by decide⟩

/-! ## C8: order preservation of the batch orchestrators -/

/-- C8: both orchestrators' outputs preserve input order regardless of the
completion order of the underlying concurrent tasks.  Pipeline A:
`get_tox_data_for_cas_numbers` fills one slot per input index, so under any
completion order (a permutation of the indices) the result sequence is the
per-input results in input order.  Pipeline B: the gathered results carry
their row index and are written back to that row, so for any permutation of
the per-row results the final table holds row `i`'s result at row `i`. -/
theorem claim_c8 :
    (∀ {α : Type} (process : String → α) (cas_numbers : List String)
        (order : List Nat),
      order.Perm (List.range cas_numbers.length) →
      get_tox_data_for_cas_numbers process cas_numbers order
        = cas_numbers.map (fun cas => some (process cas)))
    ∧ (∀ (t : List (String × String)) (g : Nat → String × String)
        (res : List (Nat × (String × String))),
      res.Perm ((List.range t.length).map (fun i => (i, g i))) →
      ∀ j, j < t.length → (writeBack t res)[j]? = some (g j)) := by
  constructor
  · intro α process cas_numbers order hperm
    rw [get_tox_data_for_cas_numbers, gatherSlots_eq_map _ _ order hperm]
    apply List.ext_getElem?
    intro j
    rw [List.getElem?_map, List.getElem?_map]
    by_cases hj : j < cas_numbers.length
    · rw [List.getElem?_range hj, List.getElem?_eq_getElem hj]
      show some (some (process (cas_numbers.getD j "")))
        = some (some (process cas_numbers[j]))
      rw [List.getD_eq_getElem?_getD, List.getElem?_eq_getElem hj]
      rfl
    · have h1 : (List.range cas_numbers.length)[j]? = none := by
        rw [List.getElem?_eq_none]
        rw [List.length_range]
        omega
      have h2 : cas_numbers[j]? = none := by
        rw [List.getElem?_eq_none]
        omega
      rw [h1, h2]
      rfl
  · intro t g res hperm j hj
    have hcomp : ((fun x : Nat × (String × String) => x.1)
        ∘ (fun i : Nat => (i, g i))) = id := by
      funext i
      rfl
    have hmapmap : ((List.range t.length).map (fun i => (i, g i))).map
        (fun x => x.1) = List.range t.length := by
      rw [List.map_map, hcomp, List.map_id]
    have hmapperm := hperm.map (fun x => x.1)
    rw [hmapmap] at hmapperm
    have hnodup : (res.map (fun x => x.1)).Nodup :=
      hmapperm.nodup_iff.mpr (List.nodup_range _)
    have hmem : (j, g j) ∈ res := by
      rw [hperm.mem_iff]
      exact List.mem_map.mpr ⟨j, List.mem_range.mpr hj, rfl⟩
    exact writeBack_getElem_mem res t j (g j) hnodup hmem hj

theorem claim_c8_witness :
    ([1, 0].Perm (List.range (["a", "b"] : List String).length)
      ∧ get_tox_data_for_cas_numbers (fun c => c ++ "!") ["a", "b"] [1, 0]
          = [some "a!", some "b!"])
    ∧ (writeBack [("", ""), ("", "")] [(1, ("h1", "p1")), (0, ("h0", "p0"))])[0]?
        = some ("h0", "p0") :=
  ⟨⟨by decide, by
      have h := claim_c8.1 (fun c => c ++ "!") ["a", "b"] [1, 0] (by decide)
      simpa using h⟩,
   by
      have h := claim_c8.2 [("", ""), ("", "")]
        (fun i => if i == 0 then ("h0", "p0") else ("h1", "p1"))
        [(1, ("h1", "p1")), (0, ("h0", "p0"))] (by decide) 0 (by decide)
      simpa using h⟩

/-! ## C9: duplicate headings overwrite (last wins) -/

/-- C9: the extractor's result maps a heading to the string leaves of the
section encountered last in traversal order among the visited matching
nodes with that heading — headings are dictionary keys, and each visit
resets the key before refilling it, so an earlier section's leaves are
overwritten, not merged. -/
theorem claim_c9 (doc : RawDoc) (k : String) (t : Sec)
    (hlast : lastMatch k (visitedDoc doc) = some t) :
    dictLookup (extract_tox_data doc) k = some t.leaves := by
  cases doc with
  | mk rs =>
    cases rs with
    | none => exact Option.noConfusion hlast
    | some secs =>
      have h1 : extract_tox_data ⟨some secs⟩ = process_secs secs [] := rfl
      have h2 : visitedDoc ⟨some secs⟩ = visitedList secs := rfl
      rw [h2] at hlast
      rw [h1, lookup_process_secs secs [] k]
      simp only [lastLeaves, hlast]

/-- First of two distinct top-level sections sharing the heading
"Toxicity". -/
def c9SecA : Sec := .mk (some "Toxicity") [["a"]] .nil

/-- Second section with the same heading but different leaves. -/
def c9SecB : Sec := .mk (some "Toxicity") [["b"]] .nil

/-- Document holding both duplicate-heading sections, in order. -/
def c9Doc : RawDoc := ⟨some (.cons c9SecA (.cons c9SecB .nil))⟩

theorem claim_c9_witness :
    lastMatch "Toxicity" (visitedDoc c9Doc) = some c9SecB
    ∧ dictLookup (extract_tox_data c9Doc) "Toxicity" = some c9SecB.leaves
    ∧ c9SecA.leaves = ["a"] ∧ c9SecB.leaves = ["b"]
    ∧ dictLookup (extract_tox_data c9Doc) "Toxicity" ≠ some ["a", "b"] :=
  ⟨rfl, claim_c9 c9Doc "Toxicity" c9SecB rfl, rfl, rfl, by
    rw [claim_c9 c9Doc "Toxicity" c9SecB rfl]
    decide⟩

/-! ## C10: rows with an empty or missing CAS cell -/

/-- C10: for a row whose CAS cell is missing (`NaN`) or the empty string,
`process_row` returns the pair of empty strings without issuing any
resolver or classification request (the request log is empty for every
oracle), and the empty pair differs from the "No data found" sentinel
written for unresolvable CAS numbers. -/
theorem claim_c10 (resolve : String → Option Int × List String)
    (classify : Int → (String × String) × List String) (idx : Nat)
    (cas : Option String) (hcas : cas = none ∨ cas = some "") :
    process_row resolve classify idx cas = ((idx, ("", "")), [])
    ∧ (("", "") : String × String) ≠ (noDataStr, noDataStr) := by
  constructor
  · have hfalsy : casFalsy cas = true := by
      rcases hcas with h | h <;> subst h <;> rfl
    rw [process_row.eq_def, if_pos hfalsy]
  · decide

theorem claim_c10_witness :
    ((none : Option String) = none ∨ (none : Option String) = some "")
    ∧ process_row (fun c => (some 2244, ["cid-req-" ++ c]))
        (fun _ => (("H302", "P264"), ["ghs-req"])) 7 none
        = ((7, ("", "")), []) :=
  ⟨Or.inl rfl,
   (claim_c10 (fun c => (some 2244, ["cid-req-" ++ c]))
      (fun _ => (("H302", "P264"), ["ghs-req"])) 7 none (Or.inl rfl)).1⟩
